import Mathlib

set_option linter.unusedVariables false
set_option linter.deprecated false

/-! Shallow embedding of the notecalc tokenizer
    (src/notecalc-lib/src/token_parser.rs): token data model, the
    operator precedence/associativity table, the six scanners and the
    parse_line loop.  External interfaces (the unit grammar, the
    rust_decimal arithmetic, the Unicode character classes of the Rust
    standard library) are kept as opaque parameters.  Rust panics
    (out-of-bounds indexing into the fixed 256-byte number buffer, the
    two unreachable panic sites in parse_line) are modelled as
    Except.error. -/

/-- Rust char::is_ascii_whitespace: space, tab, newline, form feed,
    carriage return. -/
def isAsciiWs (c : Char) : Bool :=
  c == ' ' || c == '\t' || c == '\n' || c == '\x0C' || c == '\r'

/-- Rust char::is_ascii_hexdigit. -/
def isAsciiHexDigit (c : Char) : Bool :=
  c.isDigit || (97 ≤ c.toNat && c.toNat ≤ 102) || (65 ≤ c.toNat && c.toNat ≤ 70)

/-- Modelled from the spec: the Unicode character classes
    char::is_alphabetic and char::is_alphanumeric of the Rust standard
    library are external to this repository and kept opaque. -/
structure CharExt where
  isAlphabetic : Char → Bool
  isAlphanumeric : Char → Bool

/-- Rust Option::map(p).unwrap_or(true). -/
def optAll {α : Type} (p : α → Bool) : Option α → Bool
  | none => true
  | some a => p a

/-- Rust Option::map(p).unwrap_or(false). -/
def optAny {α : Type} (p : α → Bool) : Option α → Bool
  | none => false
  | some a => p a

/-- OperatorTokenType from token_parser.rs.  The unit descriptor type U
    (UnitOutput) and the function-kind type F (FnType) are external and
    kept as parameters. -/
inductive OperatorTokenType (U F : Type) where
  | Comma
  | Add
  | UnaryPlus
  | Sub
  | UnaryMinus
  | Mult
  | Div
  | Perc
  | BinAnd
  | BinOr
  | BinXor
  | BinNot
  | Pow
  | ParenOpen
  | ParenClose
  | BracketOpen
  | Semicolon
  | BracketClose
  | ShiftLeft
  | ShiftRight
  | Assign
  | UnitConverter
  | ApplyUnit (u : U)
  | Matrix (row_count : Nat) (col_count : Nat)
  | Fn (arg_count : Nat) (typ : F)
  deriving DecidableEq

/-- Assoc from token_parser.rs. -/
inductive Assoc where
  | Left
  | Right
  deriving DecidableEq

variable {U F D : Type}

/-- OperatorTokenType::precedence, translated clause by clause. -/
def OperatorTokenType.precedence : OperatorTokenType U F → Nat
  | .Add => 2
  | .UnaryPlus => 4
  | .Sub => 2
  | .UnaryMinus => 4
  | .Mult => 3
  | .Div => 3
  | .Perc => 6
  | .BinAnd => 0
  | .BinOr => 0
  | .BinXor => 0
  | .BinNot => 4
  | .Pow => 6
  | .ParenOpen => 0
  | .ParenClose => 0
  | .ShiftLeft => 0
  | .ShiftRight => 0
  | .Assign => 0
  | .UnitConverter => 0
  | .Semicolon => 0
  | .Comma => 0
  | .BracketOpen => 0
  | .BracketClose => 0
  | .Matrix _ _ => 0
  | .Fn _ _ => 0
  | .ApplyUnit _ => 5

/-- OperatorTokenType::assoc, translated clause by clause. -/
def OperatorTokenType.assoc : OperatorTokenType U F → Assoc
  | .ParenClose => .Left
  | .Add => .Left
  | .UnaryPlus => .Left
  | .Sub => .Left
  | .UnaryMinus => .Left
  | .Mult => .Left
  | .Div => .Left
  | .Perc => .Left
  | .BinAnd => .Left
  | .BinOr => .Left
  | .BinXor => .Left
  | .BinNot => .Left
  | .Pow => .Right
  | .ParenOpen => .Left
  | .ShiftLeft => .Left
  | .ShiftRight => .Left
  | .Assign => .Left
  | .UnitConverter => .Left
  | .Semicolon => .Right
  | .Comma => .Right
  | .BracketOpen => .Left
  | .BracketClose => .Left
  | .Matrix _ _ => .Left
  | .Fn _ _ => .Left
  | .ApplyUnit _ => .Left

/-- TokenType from token_parser.rs; D is the (external) rust_decimal
    value type. -/
inductive TokenType (U F D : Type) where
  | StringLiteral
  | Header
  | Variable (var_index : Nat)
  | LineReference (var_index : Nat)
  | NumberLiteral (d : D)
  | Operator (op : OperatorTokenType U F)
  | Unit (u : U)
  | NumberErr
  deriving DecidableEq

/-- Token from token_parser.rs; ptr holds the characters of the span. -/
structure Token (U F D : Type) where
  ptr : List Char
  typ : TokenType U F D
  has_error : Bool
  deriving DecidableEq

/-- Variable-table entry.  parse_line reads only the name; the value
    slot is never inspected by the tokenizer. -/
structure Variable where
  name : List Char
  deriving DecidableEq

/-- Variables = [Option<Variable>] in the crate root. -/
abbrev Variables := List (Option Variable)

/-- Modelled from the spec: the reserved "sum" sentinel index
    SUM_VARIABLE_INDEX is defined in the crate root (not in
    token_parser.rs); its numeric value is opaque to the tokenizer. -/
def SUM_VARIABLE_INDEX : Nat := 64

/-- Modelled from the spec: the external Unit Grammar interface
    (spec section 6): parse recognizes a unit-expression prefix and
    returns a descriptor plus consumed length, 0 meaning no match; a
    recognized prefix never extends past the input. -/
structure UnitsM (U : Type) where
  parse : List Char → U × Nat
  parse_le : ∀ s, (parse s).2 ≤ s.length

/-- Modelled from the spec: the external rust_decimal arithmetic used by
    the number scanner (Decimal::from_str, Decimal::from_scientific,
    Decimal::checked_mul, the π constant and integer conversion); exact
    range and precision are an external contract, so all of these are
    opaque parameters here. -/
structure DecOps (D : Type) where
  pi : D
  from_str : List Char → Option D
  from_scientific : List Char → Option D
  checked_mul : D → D → Option D
  ofInt : Int → D

/-- CanBeUnit from token_parser.rs. -/
inductive CanBeUnit where
  | Not
  | ApplyToPrevToken
  | StandInItself
  deriving DecidableEq

/-- TokenParser::try_extract_comment. -/
def try_extract_comment (line : List Char) : Option (Token U F D) :=
  if line.take 2 = ['/', '/'] then some ⟨line, .StringLiteral, false⟩ else none

/-- The candidate test of try_extract_variable_name for one table entry:
    every character of the name matches the input, and the character
    right after the name (if any) is neither a parenthesis-open nor
    alphanumeric. -/
def candOk (cx : CharExt) (line : List Char) (name : List Char) : Bool :=
  (line.take name.length == name)
    && !(optAny (fun c => c == '(') (line.get? name.length))
    && !(optAny cx.isAlphanumeric (line.get? name.length))

/-- The backward scan of try_extract_variable_name: iterate the sliced
    table from the highest index down to 0 (Rust enumerate().rev()),
    keeping (best index, best length), replacing only on strictly longer
    candidate names. -/
def varScanDown (cx : CharExt) (line : List Char) (s : List (Option Variable)) :
    Nat → Nat × Nat → Nat × Nat
  | 0, best => best
  | r + 1, best =>
    varScanDown cx line s r
      (match s.get? r with
       | some (some v) =>
         if candOk cx line v.name then
           if best.2 < v.name.length then (r, v.name.length) else best
         else best
       | _ => best)

/-- TokenParser::try_extract_variable_name.  The Rust slice
    vars[0..row_index] is modelled as List.take row_index (callers pass a
    table of at least row_index entries). -/
def try_extract_variable_name (cx : CharExt) (line : List Char) (vars : Variables)
    (row_index : Nat) (prev_was_lineref : Bool) : Option (Token U F D) :=
  if line.take 3 = ['s', 'u', 'm'] ∧ optAll (fun c => c == ' ') (line.get? 3) then
    some ⟨line.take 3, .Variable SUM_VARIABLE_INDEX, false⟩
  else if 0 < (varScanDown cx line (vars.take row_index) (vars.take row_index).length (0, 0)).2 then
    if 2 < (varScanDown cx line (vars.take row_index) (vars.take row_index).length (0, 0)).2
        ∧ line.get? 0 = some '&' ∧ line.get? 1 = some '[' then
      if prev_was_lineref then none
      else
        some ⟨line.take (varScanDown cx line (vars.take row_index) (vars.take row_index).length (0, 0)).2,
          .LineReference (varScanDown cx line (vars.take row_index) (vars.take row_index).length (0, 0)).1,
          false⟩
    else
      some ⟨line.take (varScanDown cx line (vars.take row_index) (vars.take row_index).length (0, 0)).2,
        .Variable (varScanDown cx line (vars.take row_index) (vars.take row_index).length (0, 0)).1,
        false⟩
  else none

/-- The trailing-whitespace trim of try_extract_unit
    (while i > 0 && str[i-1].is_ascii_whitespace() do i -= 1). -/
def unitTrim (str : List Char) : Nat → Nat
  | 0 => 0
  | n + 1 => if optAny isAsciiWs (str.get? n) then unitTrim str n else n + 1

/-- TokenParser::try_extract_unit.  The inner CanBeUnit::Not match arm is
    the Rust panic!("impossible"), unreachable behind the initial guard. -/
def try_extract_unit (units : UnitsM U) (str : List Char) (can_be_unit : CanBeUnit) :
    Option (Token U F D) :=
  if can_be_unit = CanBeUnit.Not ∨ optAny isAsciiWs (str.get? 0) then none
  else if (units.parse str).2 = 0 then none
  else
    match can_be_unit with
    | CanBeUnit.Not => none
    | CanBeUnit.ApplyToPrevToken =>
      some ⟨str.take (unitTrim str (units.parse str).2),
        .Operator (.ApplyUnit (units.parse str).1), false⟩
    | CanBeUnit.StandInItself =>
      some ⟨str.take (unitTrim str (units.parse str).2), .Unit (units.parse str).1, false⟩

/-- The op(...) helper inside try_extract_operator. -/
def opTok (typ : OperatorTokenType U F) (str : List Char) (len : Nat) :
    Option (Token U F D) :=
  some ⟨str.take len, .Operator typ, false⟩

/-- TokenParser::try_extract_operator. -/
def try_extract_operator (cx : CharExt) (str : List Char) : Option (Token U F D) :=
  match str.head? with
  | none => none
  | some c =>
    if c = '=' then opTok .Assign str 1
    else if c = '+' then opTok .Add str 1
    else if c = '-' then opTok .Sub str 1
    else if c = '*' then opTok .Mult str 1
    else if c = '/' then opTok .Div str 1
    else if c = '%' then opTok .Perc str 1
    else if c = '^' then opTok .Pow str 1
    else if c = '(' then opTok .ParenOpen str 1
    else if c = ')' then opTok .ParenClose str 1
    else if c = '[' then opTok .BracketOpen str 1
    else if c = ']' then opTok .BracketClose str 1
    else if c = ',' then opTok .Comma str 1
    else if c = ';' then opTok .Semicolon str 1
    else if str.take 3 = ['i', 'n', ' '] then opTok .UnitConverter str 2
    else if str.take 3 = ['A', 'N', 'D']
        ∧ optAll (fun c2 => ! cx.isAlphabetic c2) (str.get? 3) then
      opTok .BinAnd str 3
    else if str.take 2 = ['O', 'R']
        ∧ optAll (fun c2 => ! cx.isAlphabetic c2) (str.get? 2) then
      opTok .BinOr str 2
    else if str.take 4 = ['N', 'O', 'T', '('] then opTok .BinNot str 3
    else if str.take 3 = ['X', 'O', 'R']
        ∧ optAll (fun c2 => ! cx.isAlphabetic c2) (str.get? 3) then
      opTok .BinXor str 3
    else if str.take 2 = ['<', '<'] then opTok .ShiftLeft str 2
    else if str.take 2 = ['>', '>'] then opTok .ShiftRight str 2
    else none

/-- TokenParser::try_extract_string_literal: first a run of non-break
    non-whitespace characters, else a run of whitespace. -/
def strBreakChar (c : Char) : Bool :=
  c == '=' || c == '%' || c == '/' || c == '+' || c == '-' || c == '*'
    || c == '^' || c == '(' || c == ')' || c == '[' || c == ']'

def try_extract_string_literal (str : List Char) : Option (Token U F D) :=
  if 0 < (str.takeWhile (fun c => ! (strBreakChar c || isAsciiWs c))).length then
    some ⟨str.take (str.takeWhile (fun c => ! (strBreakChar c || isAsciiWs c))).length,
      .StringLiteral, false⟩
  else if 0 < (str.takeWhile isAsciiWs).length then
    some ⟨str.take (str.takeWhile isAsciiWs).length, .StringLiteral, false⟩
  else none

/-- One write into the fixed buffer (let mut number_str = [b'0'; 256]):
    number_str[number_str_index] = c panics when the index reaches 256.
    The buffer is kept as (characters so far in reverse, write index). -/
def bpush (c : Char) (b : List Char × Nat) : Except Unit (List Char × Nat) :=
  if b.2 < 256 then .ok (c :: b.1, b.2 + 1) else .error ()

/-- The accumulated number text (number_str[0..number_str_index]). -/
def bufStr (b : List Char × Nat) : List Char := b.1.reverse

/-- Leading minus is consumed only when immediately followed by a
    non-whitespace character (try_extract_number_literal, first branch). -/
def numNeg (str : List Char) : Bool :=
  optAny (fun c => c == '-') (str.get? 0)
    && optAny (fun c => ! isAsciiWs c) (str.get? 1)

def numI0 (str : List Char) : Nat := if numNeg str then 1 else 0

def numBuf0 (str : List Char) : List Char × Nat :=
  if numNeg str then (['-'], 1) else ([], 0)

/-- The character before the position where the decimal loop starts; it
    is only inspected when the loop starts past position 0, in which case
    it is the consumed minus sign. -/
def numPrev0 (str : List Char) : Char := if numNeg str then '-' else '\x00'

/-- The binary digit loop of try_extract_number_literal: consume 0/1 and
    transparent whitespace, tracking end_index_before_last_whitespace. -/
def binScanAux : List Char → Nat → Nat → (List Char × Nat) →
    Except Unit (Nat × (List Char × Nat))
  | [], _, e, buf => .ok (e, buf)
  | c :: rest, i, e, buf =>
    if c = '0' ∨ c = '1' then
      match bpush c buf with
      | .error _ => .error ()
      | .ok b2 => binScanAux rest (i + 1) (i + 1) b2
    else if isAsciiWs c then binScanAux rest (i + 1) e buf
    else .ok (e, buf)

/-- The hex digit loop of try_extract_number_literal: a hex digit is
    consumed only if the next character is a hex digit, an underscore or
    non-alphabetic; underscores are transparent. -/
def hexScanAux (cx : CharExt) : List Char → Nat → Nat → (List Char × Nat) →
    Except Unit (Nat × (List Char × Nat))
  | [], _, e, buf => .ok (e, buf)
  | c :: rest, i, e, buf =>
    if isAsciiHexDigit c
        ∧ optAll (fun c2 => isAsciiHexDigit c2 || c2 == '_' || ! cx.isAlphabetic c2)
            rest.head? then
      match bpush c buf with
      | .error _ => .error ()
      | .ok b2 => hexScanAux cx rest (i + 1) (i + 1) b2
    else if c = '_' then hexScanAux cx rest (i + 1) e buf
    else .ok (e, buf)

/-- State of the decimal/scientific loop of try_extract_number_literal:
    decimal point count, digit count, exponent-marker count,
    end_index_before_last_whitespace, exponent-minus seen, exponent
    already written to the buffer, SI multiplier, number buffer. -/
structure DScan where
  dpc : Nat
  dc : Nat
  ec : Nat
  endi : Nat
  eneg : Bool
  eadded : Bool
  mult : Option Nat
  buf : List Char × Nat
  deriving DecidableEq

def decInit (str : List Char) : DScan :=
  { dpc := 0, dc := 0, ec := 0, endi := 0, eneg := false, eadded := false,
    mult := none, buf := numBuf0 str }

/-- The deferred exponent write of the digit branch: number_str gets an
    e, then a minus when the exponent was negative, then the digit (three
    writes into the fixed buffer, each able to panic). -/
def epush (eneg : Bool) (c : Char) (buf : List Char × Nat) :
    Except Unit (List Char × Nat) :=
  match bpush 'e' buf with
  | .error _ => .error ()
  | .ok b2 =>
    match (if eneg then bpush '-' b2 else .ok b2) with
    | .error _ => .error ()
    | .ok b3 => bpush c b3

/-- The decimal/scientific character loop of try_extract_number_literal,
    branch for branch in the Rust order: decimal point, exponent minus,
    exponent marker, SI suffix k, SI suffix M, digit (with deferred
    exponent write), transparent whitespace, else stop. -/
def decScanAux (cx : CharExt) : List Char → Nat → Char → DScan → Except Unit DScan
  | [], _, _, s => .ok s
  | c :: rest, i, prev, s =>
    if c = '.' ∧ s.dpc < 1 ∧ s.ec < 1 then
      match bpush c s.buf with
      | .error _ => .error ()
      | .ok b2 =>
        decScanAux cx rest (i + 1) c { s with dpc := s.dpc + 1, endi := i + 1, buf := b2 }
    else if c = '-' ∧ s.ec = 1 then
      if s.eneg ∨ s.eadded then .ok s
      else decScanAux cx rest (i + 1) c { s with eneg := true }
    else if c = 'e' ∧ s.ec < 1 ∧ ¬ isAsciiWs prev then
      decScanAux cx rest (i + 1) c { s with ec := s.ec + 1 }
    else if c = 'k' ∧ s.ec < 1 ∧ ¬ isAsciiWs prev
        ∧ optAll (fun c2 => ! cx.isAlphabetic c2) rest.head? then
      .ok { s with mult := some 1000, endi := i + 1 }
    else if c = 'M' ∧ s.ec < 1 ∧ ¬ isAsciiWs prev
        ∧ optAll (fun c2 => ! cx.isAlphabetic c2) rest.head? then
      .ok { s with mult := some 1000000, endi := i + 1 }
    else if c.isDigit then
      if 0 < s.ec ∧ ¬ s.eadded then
        match epush s.eneg c s.buf with
        | .error _ => .error ()
        | .ok b4 =>
          decScanAux cx rest (i + 1) c { s with endi := i + 1, eadded := true, buf := b4 }
      else
        match bpush c s.buf with
        | .error _ => .error ()
        | .ok b2 =>
          decScanAux cx rest (i + 1) c { s with dc := s.dc + 1, endi := i + 1, buf := b2 }
    else if isAsciiWs c then decScanAux cx rest (i + 1) c s
    else .ok s

def binDigitVal (c : Char) : Option Nat :=
  if c = '0' then some 0 else if c = '1' then some 1 else none

def hexDigitVal (c : Char) : Option Nat :=
  if c.isDigit then some (c.toNat - 48)
  else if 97 ≤ c.toNat ∧ c.toNat ≤ 102 then some (c.toNat - 87)
  else if 65 ≤ c.toNat ∧ c.toNat ≤ 70 then some (c.toNat - 55)
  else none

def digitsValAux (base : Nat) (dv : Char → Option Nat) : List Char → Nat → Option Nat
  | [], acc => some acc
  | c :: rest, acc =>
    match dv c with
    | none => none
    | some d => digitsValAux base dv rest (acc * base + d)

def radixDigitsVal (base : Nat) (dv : Char → Option Nat) (s : List Char) : Option Nat :=
  match s with
  | [] => none
  | _ => digitsValAux base dv s 0

/-- Modelled from the spec: Rust i64::from_str_radix on the strings this
    tokenizer builds (an optional sign then digits); it fails on empty
    digits, on a non-digit and on overflow past the 64-bit signed
    range. -/
def from_str_radix (base : Nat) (dv : Char → Option Nat) (s : List Char) : Option Int :=
  match s with
  | '-' :: rest =>
    match radixDigitsVal base dv rest with
    | none => none
    | some v => if (v : Int) ≤ 2 ^ 63 then some (-(v : Int)) else none
  | '+' :: rest =>
    match radixDigitsVal base dv rest with
    | none => none
    | some v => if (v : Int) ≤ 2 ^ 63 - 1 then some (v : Int) else none
  | _ =>
    match radixDigitsVal base dv s with
    | none => none
    | some v => if (v : Int) ≤ 2 ^ 63 - 1 then some (v : Int) else none

/-- TokenParser::try_extract_number_literal: π, binary, hex, then the
    decimal/scientific branch with SI multipliers.  In parse_line the
    argument is always non-empty; the Rust str[0] accesses are modelled
    with get? (they read some character there). -/
def try_extract_number_literal (cx : CharExt) (ops : DecOps D) (str : List Char) :
    Except Unit (Option (Token U F D)) :=
  if optAny (fun c => c == 'π') (str.get? 0) then
    .ok (some ⟨str.take 1, .NumberLiteral ops.pi, false⟩)
  else if (str.drop (numI0 str)).take 2 = ['0', 'b'] then
    match binScanAux (str.drop (numI0 str + 2)) (numI0 str + 2) (numI0 str + 2)
        (numBuf0 str) with
    | .error _ => .error ()
    | .ok (e, buf) =>
      if 2 < e then
        match from_str_radix 2 binDigitVal (bufStr buf) with
        | none => .ok none
        | some v => .ok (some ⟨str.take e, .NumberLiteral (ops.ofInt v), false⟩)
      else .ok none
  else if (str.drop (numI0 str)).take 2 = ['0', 'x'] then
    match hexScanAux cx (str.drop (numI0 str + 2)) (numI0 str + 2) (numI0 str + 2)
        (numBuf0 str) with
    | .error _ => .error ()
    | .ok (e, buf) =>
      if 2 < e then
        match from_str_radix 16 hexDigitVal (bufStr buf) with
        | none => .ok none
        | some v => .ok (some ⟨str.take e, .NumberLiteral (ops.ofInt v), false⟩)
      else .ok none
  else if optAny (fun c => c.isDigit || c == '.' || c == '-') (str.get? 0) then
    match decScanAux cx (str.drop (numI0 str)) (numI0 str) (numPrev0 str) (decInit str) with
    | .error _ => .error ()
    | .ok s =>
      if 0 < s.dc then
        match (if s.eadded then ops.from_scientific else ops.from_str) (bufStr s.buf) with
        | none => .ok (some ⟨str.take s.endi, .NumberErr, true⟩)
        | some n =>
          match s.mult with
          | none => .ok (some ⟨str.take s.endi, .NumberLiteral n, false⟩)
          | some m =>
            match ops.checked_mul (ops.ofInt (m : Int)) n with
            | none => .ok (some ⟨str.take s.endi, .NumberErr, true⟩)
            | some r => .ok (some ⟨str.take s.endi, .NumberLiteral r, false⟩)
      else .ok none
  else .ok none

/-- The token-kind match in the parse_line loop that updates can_be_unit
    after a token is appended.  The Header arm is the Rust panic!(); the
    empty StringLiteral case is the Rust token.ptr[0] index panic. -/
def nextCanBeUnit (t : Token U F D) (cbu : CanBeUnit) : Except Unit CanBeUnit :=
  match t.typ with
  | .Header => .error ()
  | .StringLiteral =>
    match t.ptr.head? with
    | none => .error ()
    | some c => if isAsciiWs c then .ok cbu else .ok CanBeUnit.Not
  | .NumberLiteral _ => .ok CanBeUnit.ApplyToPrevToken
  | .NumberErr => .ok CanBeUnit.ApplyToPrevToken
  | .Unit _ => .ok CanBeUnit.Not
  | .Operator op =>
    match op with
    | .ParenClose => .ok cbu
    | .UnitConverter => .ok CanBeUnit.StandInItself
    | .Div => .ok CanBeUnit.StandInItself
    | _ => .ok CanBeUnit.Not
  | .Variable _ => .ok CanBeUnit.Not
  | .LineReference _ => .ok CanBeUnit.Not

def isLineRefT (t : Token U F D) : Bool :=
  match t.typ with
  | .LineReference _ => true
  | _ => false

/-- The or_else chain of scanners in the parse_line loop, in the Rust
    priority order: comment, variable/reference, unit, operator, number
    literal, string fallback. -/
def scanOnce (cx : CharExt) (units : UnitsM U) (ops : DecOps D) (vars : Variables)
    (line_index : Nat) (rem : List Char) (can_be_unit : CanBeUnit)
    (prev_was_lineref : Bool) : Except Unit (Option (Token U F D)) :=
  match try_extract_comment (U := U) (F := F) (D := D) rem with
  | some t => .ok (some t)
  | none =>
    match try_extract_variable_name (U := U) (F := F) (D := D) cx rem vars line_index
        prev_was_lineref with
    | some t => .ok (some t)
    | none =>
      match try_extract_unit (F := F) (D := D) units rem can_be_unit with
      | some t => .ok (some t)
      | none =>
        match try_extract_operator (U := U) (F := F) (D := D) cx rem with
        | some t => .ok (some t)
        | none =>
          match try_extract_number_literal (U := U) (F := F) cx ops rem with
          | .error _ => .error ()
          | .ok (some t) => .ok (some t)
          | .ok none => .ok (try_extract_string_literal rem)

/-- The while loop of parse_line.  The cursor is index; tokens are
    accumulated in reverse (dst.last() is acc.head?).  The fuel argument
    is an upper bound on the remaining iterations; parse_line calls it
    with line.length, which always suffices because every produced token
    consumes at least one character. -/
def parseLoop (cx : CharExt) (units : UnitsM U) (ops : DecOps D) (vars : Variables)
    (line_index : Nat) (line : List Char) :
    Nat → Nat → CanBeUnit → List (Token U F D) → Except Unit (List (Token U F D))
  | 0, _, _, acc => .ok acc.reverse
  | fuel + 1, index, cbu, acc =>
    if index < line.length then
      match scanOnce cx units ops vars line_index (line.drop index) cbu
          (optAny isLineRefT acc.head?) with
      | .error _ => .error ()
      | .ok none => .ok acc.reverse
      | .ok (some t) =>
        match nextCanBeUnit t cbu with
        | .error _ => .error ()
        | .ok cbu2 =>
          parseLoop cx units ops vars line_index line fuel (index + t.ptr.length) cbu2
            (t :: acc)
    else .ok acc.reverse

/-- TokenParser::parse_line: a # line yields a single Header token over
    the whole line; otherwise run the scanner loop from position 0 in
    mode CanBeUnit::Not with an empty token list. -/
def parse_line (cx : CharExt) (units : UnitsM U) (ops : DecOps D) (line : List Char)
    (vars : Variables) (line_index : Nat) : Except Unit (List (Token U F D)) :=
  if line.take 1 = ['#'] then .ok [⟨line, .Header, false⟩]
  else parseLoop cx units ops vars line_index line line.length 0 CanBeUnit.Not []

/-- Concatenation of the tokens' character spans, in order. -/
def spansJoin (toks : List (Token U F D)) : List Char :=
  (toks.map Token.ptr).flatten

/-- A token of numeric kind (NumberLiteral or NumberErr). -/
def numberish (t : Token U F D) : Prop :=
  (∃ d, t.typ = TokenType.NumberLiteral d) ∨ t.typ = TokenType.NumberErr

/-- Second definition, following the spec's precedence table
    (section 4.7) tier by tier, for comparison with the source's
    precedence function. -/
def specPrecedence : OperatorTokenType U F → Nat
  | .Perc => 6
  | .Pow => 6
  | .ApplyUnit _ => 5
  | .UnaryPlus => 4
  | .UnaryMinus => 4
  | .BinNot => 4
  | .Mult => 3
  | .Div => 3
  | .Add => 2
  | .Sub => 2
  | _ => 0

/-- A trivial instantiation of the external interfaces, used to evaluate
    the tokenizer on concrete inputs: no Unicode letters beyond ASCII
    behavior is needed, no unit ever matches, and the decimal parser
    rejects everything (so every decimal numeral becomes NumberErr). -/
def cx0 : CharExt := ⟨fun _ => false, fun _ => false⟩

def units0 : UnitsM Unit := ⟨fun _ => ((), 0), fun _ => Nat.zero_le _⟩

def ops0 : DecOps Unit :=
  { pi := (), from_str := fun _ => none, from_scientific := fun _ => none,
    checked_mul := fun _ _ => none, ofInt := fun _ => () }

/-- A second instantiation whose decimal parser accepts everything. -/
def ops1 : DecOps Unit :=
  { pi := (), from_str := fun _ => some (), from_scientific := fun _ => some (),
    checked_mul := fun _ _ => some (), ofInt := fun _ => () }

/-- The possible results of the operator scanner: no match, or an
    operator token over one, two or three leading characters. -/
def opGood (l : List Char) (x : Option (Token U F D)) : Prop :=
  x = none ∨ ∃ k o, 0 < k ∧ x = some ⟨l.take k, TokenType.Operator o, false⟩

/-! ### Utility lemmas -/

theorem take_canon (l : List Char) (k : Nat) :
    l.take k = l.take ((l.take k).length) ∧ (l.take k).length ≤ l.length := by
  constructor
  · rw [List.length_take]
    rcases Nat.le_total k l.length with h | h
    · rw [Nat.min_eq_left h]
    · rw [Nat.min_eq_right h, List.take_length]
      exact List.take_of_length_le h
  · rw [List.length_take]; omega

theorem head?_take {α : Type} (l : List α) (k : Nat) (hk : 0 < k) :
    (l.take k).head? = l.head? := by
  cases l with
  | nil => simp
  | cons a t =>
    cases k with
    | zero => omega
    | succ n => simp [List.take]

theorem take_length_takeWhile {α : Type} (p : α → Bool) (l : List α) :
    l.take ((l.takeWhile p).length) = l.takeWhile p := by
  induction l with
  | nil => simp
  | cons a t ih =>
    by_cases h : p a
    · simp [List.takeWhile_cons, h, ih]
    · simp [List.takeWhile_cons, h]

theorem canonA (rem ptr : List Char) (k : Nat) (hk : 0 < k) (hrem : rem ≠ [])
    (hptr : ptr = rem.take k) :
    ptr = rem.take ptr.length ∧ 1 ≤ ptr.length ∧ ptr.length ≤ rem.length := by
  have hlp : 0 < rem.length := List.length_pos.mpr hrem
  subst hptr
  refine ⟨(take_canon rem k).1, ?_, (take_canon rem k).2⟩
  rw [List.length_take]
  omega

theorem spansJoin_append (a b : List (Token U F D)) :
    spansJoin (a ++ b) = spansJoin a ++ spansJoin b := by
  simp [spansJoin]

theorem get?_take_iff {α : Type} (l : List α) (n i : Nat) (x : α) :
    (l.take n).get? i = some x ↔ i < n ∧ l.get? i = some x := by
  by_cases hi : i < n
  · rw [List.get?_take hi]
    exact ⟨fun h => ⟨hi, h⟩, fun h => h.2⟩
  · constructor
    · intro h
      have hlen : (l.take n).length ≤ i := by rw [List.length_take]; omega
      rw [List.get?_eq_none.mpr hlen] at h
      cases h
    · intro h
      exact absurd h.1 hi

theorem unitTrim_pos (str : List Char) (h : optAny isAsciiWs (str.get? 0) = false) :
    ∀ n, 0 < n → 0 < unitTrim str n := by
  intro n
  induction n with
  | zero => omega
  | succ m ih =>
    intro _
    rw [unitTrim]
    split
    · rename_i hws
      cases Nat.eq_zero_or_pos m with
      | inl h0 =>
        subst h0
        rw [h] at hws
        cases hws
      | inr hp => exact ih hp
    · omega

/-! ### Per-scanner specification lemmas -/

theorem comment_spec (l : List Char) (t : Token U F D)
    (h : try_extract_comment l = some t) :
    t.ptr = l ∧ t.typ = TokenType.StringLiteral ∧ l.take 2 = ['/', '/'] := by
  unfold try_extract_comment at h
  split at h
  · cases h
    exact ⟨rfl, rfl, by assumption⟩
  · cases h

theorem var_spec (cx : CharExt) (l : List Char) (vars : Variables) (ri : Nat)
    (plr : Bool) (t : Token U F D)
    (h : try_extract_variable_name cx l vars ri plr = some t) :
    (∃ k, 0 < k ∧ t.ptr = l.take k) ∧
      ((∃ j, t.typ = TokenType.Variable j) ∨
        ((∃ j, t.typ = TokenType.LineReference j) ∧ plr = false)) := by
  unfold try_extract_variable_name at h
  by_cases hsum2 : l.take 3 = ['s', 'u', 'm'] ∧ optAll (fun c => c == ' ') (l.get? 3) = true
  · rw [if_pos hsum2] at h
    cases h
    exact ⟨⟨3, by omega, rfl⟩, Or.inl ⟨SUM_VARIABLE_INDEX, rfl⟩⟩
  · rw [if_neg hsum2] at h
    by_cases hpos : 0 < (varScanDown cx l (vars.take ri) (vars.take ri).length (0, 0)).2
    · rw [if_pos hpos] at h
      by_cases hlr : 2 < (varScanDown cx l (vars.take ri) (vars.take ri).length (0, 0)).2
          ∧ l.get? 0 = some '&' ∧ l.get? 1 = some '['
      · rw [if_pos hlr] at h
        cases plr with
        | true =>
          rw [if_pos rfl] at h
          cases h
        | false =>
          rw [if_neg (by simp)] at h
          cases h
          exact ⟨⟨_, hpos, rfl⟩, Or.inr ⟨⟨_, rfl⟩, rfl⟩⟩
      · rw [if_neg hlr] at h
        cases h
        exact ⟨⟨_, hpos, rfl⟩, Or.inl ⟨_, rfl⟩⟩
    · rw [if_neg hpos] at h
      cases h

theorem unit_spec (units : UnitsM U) (l : List Char) (cbu : CanBeUnit)
    (t : Token U F D) (h : try_extract_unit units l cbu = some t) :
    (∃ k, 0 < k ∧ t.ptr = l.take k) ∧
      ((∃ u, t.typ = TokenType.Operator (OperatorTokenType.ApplyUnit u)) ∨
        (∃ u, t.typ = TokenType.Unit u)) := by
  unfold try_extract_unit at h
  by_cases hg : cbu = CanBeUnit.Not ∨ optAny isAsciiWs (l.get? 0) = true
  · rw [if_pos hg] at h
    cases h
  · rw [if_neg hg] at h
    push_neg at hg
    have hws : optAny isAsciiWs (l.get? 0) = false := by
      have := hg.2
      simpa using this
    by_cases hz : (units.parse l).2 = 0
    · rw [if_pos hz] at h
      cases h
    · rw [if_neg hz] at h
      have htrim : 0 < unitTrim l (units.parse l).2 :=
        unitTrim_pos l hws _ (by omega)
      cases cbu with
      | Not => exact absurd rfl hg.1
      | ApplyToPrevToken =>
        cases h
        exact ⟨⟨_, htrim, rfl⟩, Or.inl ⟨_, rfl⟩⟩
      | StandInItself =>
        cases h
        exact ⟨⟨_, htrim, rfl⟩, Or.inr ⟨_, rfl⟩⟩

theorem opGood_ite (l : List Char) (P : Prop) [Decidable P]
    (a b : Option (Token U F D)) (ha : opGood l a) (hb : opGood l b) :
    opGood l (if P then a else b) := by
  by_cases h : P
  · rwa [if_pos h]
  · rwa [if_neg h]

theorem opGood_none (l : List Char) : opGood (U := U) (F := F) (D := D) l none :=
  Or.inl rfl

theorem opGood_tok (l : List Char) (k : Nat) (o : OperatorTokenType U F) (hk : 0 < k) :
    opGood (D := D) l (some ⟨l.take k, TokenType.Operator o, false⟩) :=
  Or.inr ⟨k, o, hk, rfl⟩

theorem op_shape (cx : CharExt) (l : List Char) :
    opGood l (try_extract_operator (U := U) (F := F) (D := D) cx l) := by
  unfold try_extract_operator opTok
  split
  · exact opGood_none l
  · repeat'
      first
      | exact opGood_none l
      | exact opGood_tok l 1 _ (by omega)
      | exact opGood_tok l 2 _ (by omega)
      | exact opGood_tok l 3 _ (by omega)
      | apply opGood_ite

theorem op_spec (cx : CharExt) (l : List Char) (t : Token U F D)
    (h : try_extract_operator cx l = some t) :
    (∃ k, 0 < k ∧ t.ptr = l.take k) ∧ ∃ o, t.typ = TokenType.Operator o := by
  rcases op_shape (U := U) (F := F) (D := D) cx l with hn | ⟨k, o, hk, he⟩
  · rw [hn] at h
    cases h
  · rw [he] at h
    cases h
    exact ⟨⟨k, hk, rfl⟩, ⟨o, rfl⟩⟩

theorem op_minus (cx : CharExt) (l : List Char) (hc : l.head? = some '-') :
    try_extract_operator (U := U) (F := F) (D := D) cx l =
      some ⟨l.take 1, TokenType.Operator OperatorTokenType.Sub, false⟩ := by
  unfold try_extract_operator
  rw [hc]
  simp [opTok]

theorem str_spec (l : List Char) (t : Token U F D)
    (h : try_extract_string_literal l = some t) :
    (∃ k, 0 < k ∧ t.ptr = l.take k) ∧ t.typ = TokenType.StringLiteral ∧
      optAny isAsciiWs t.ptr.head? = t.ptr.all isAsciiWs := by
  unfold try_extract_string_literal at h
  split at h
  · rename_i hi
    cases h
    refine ⟨⟨_, hi, rfl⟩, rfl, ?_⟩
    dsimp only
    rw [take_length_takeWhile]
    rcases hh : (l.takeWhile (fun c => ! (strBreakChar c || isAsciiWs c))).head? with _ | c
    · rw [List.head?_eq_none_iff] at hh
      rw [hh] at hi
      simp at hi
    · have hmem : c ∈ l.takeWhile (fun c => ! (strBreakChar c || isAsciiWs c)) :=
        List.mem_of_mem_head? hh
      have hp := List.mem_takeWhile_imp hmem
      have hcws : isAsciiWs c = false := by
        rcases hws : isAsciiWs c with _ | _
        · rfl
        · rw [hws] at hp; simp at hp
      have : (l.takeWhile (fun c => ! (strBreakChar c || isAsciiWs c))).all isAsciiWs = false := by
        rcases hall : (l.takeWhile (fun c => ! (strBreakChar c || isAsciiWs c))).all isAsciiWs with _ | _
        · rfl
        · rw [List.all_eq_true] at hall
          have := hall c hmem
          rw [hcws] at this
          cases this
      rw [this]
      simpa [optAny] using hcws
  · split at h
    · rename_i hj
      cases h
      refine ⟨⟨_, hj, rfl⟩, rfl, ?_⟩
      dsimp only
      rw [take_length_takeWhile]
      rcases hh : (l.takeWhile isAsciiWs).head? with _ | c
      · rw [List.head?_eq_none_iff] at hh
        rw [hh] at hj
        simp at hj
      · have hmem : c ∈ l.takeWhile isAsciiWs := List.mem_of_mem_head? hh
        have hp := List.mem_takeWhile_imp hmem
        have : (l.takeWhile isAsciiWs).all isAsciiWs = true := by
          rw [List.all_eq_true]
          intro x hx
          exact List.mem_takeWhile_imp hx
        rw [this]
        simpa [optAny] using hp
    · cases h

theorem decScanAux_endi (cx : CharExt) :
    ∀ (l : List Char) (i : Nat) (p : Char) (s s2 : DScan),
      decScanAux cx l i p s = .ok s2 → (0 < s.dc → 0 < s.endi) →
      (0 < s2.dc → 0 < s2.endi) := by
  intro l
  induction l with
  | nil =>
    intro i p s s2 h hI
    rw [decScanAux] at h
    cases h
    exact hI
  | cons c rest ih =>
    intro i p s s2 h hI
    rw [decScanAux] at h
    by_cases h1 : c = '.' ∧ s.dpc < 1 ∧ s.ec < 1
    · rw [if_pos h1] at h
      cases hb : bpush c s.buf with
      | error e =>
        rw [hb] at h
        cases h
      | ok b2 =>
        rw [hb] at h
        exact ih _ _ _ _ h fun _ => Nat.succ_pos i
    · rw [if_neg h1] at h
      by_cases h2 : c = '-' ∧ s.ec = 1
      · rw [if_pos h2] at h
        by_cases h2b : s.eneg = true ∨ s.eadded = true
        · rw [if_pos h2b] at h
          cases h
          exact hI
        · rw [if_neg h2b] at h
          exact ih _ _ _ _ h hI
      · rw [if_neg h2] at h
        by_cases h3 : c = 'e' ∧ s.ec < 1 ∧ ¬ isAsciiWs p = true
        · rw [if_pos h3] at h
          exact ih _ _ _ _ h hI
        · rw [if_neg h3] at h
          by_cases h4 : c = 'k' ∧ s.ec < 1 ∧ ¬ isAsciiWs p = true
              ∧ optAll (fun c2 => ! cx.isAlphabetic c2) rest.head? = true
          · rw [if_pos h4] at h
            cases h
            exact fun _ => Nat.succ_pos i
          · rw [if_neg h4] at h
            by_cases h5 : c = 'M' ∧ s.ec < 1 ∧ ¬ isAsciiWs p = true
                ∧ optAll (fun c2 => ! cx.isAlphabetic c2) rest.head? = true
            · rw [if_pos h5] at h
              cases h
              exact fun _ => Nat.succ_pos i
            · rw [if_neg h5] at h
              by_cases h6 : c.isDigit = true
              · rw [if_pos h6] at h
                by_cases h7 : 0 < s.ec ∧ ¬ s.eadded = true
                · rw [if_pos h7] at h
                  cases hb : epush s.eneg c s.buf with
                  | error e =>
                    rw [hb] at h
                    cases h
                  | ok b4 =>
                    rw [hb] at h
                    exact ih _ _ _ _ h fun _ => Nat.succ_pos i
                · rw [if_neg h7] at h
                  cases hb : bpush c s.buf with
                  | error e =>
                    rw [hb] at h
                    cases h
                  | ok b2 =>
                    rw [hb] at h
                    exact ih _ _ _ _ h fun _ => Nat.succ_pos i
              · rw [if_neg h6] at h
                by_cases h8 : isAsciiWs c = true
                · rw [if_pos h8] at h
                  exact ih _ _ _ _ h hI
                · rw [if_neg h8] at h
                  cases h
                  exact hI

theorem num_spec (cx : CharExt) (ops : DecOps D) (l : List Char) (t : Token U F D)
    (h : try_extract_number_literal cx ops l = .ok (some t)) :
    (∃ k, 0 < k ∧ t.ptr = l.take k) ∧ numberish t := by
  have hinit : 0 < (decInit l).dc → 0 < (decInit l).endi := fun hx => absurd hx (by simp [decInit])
  unfold try_extract_number_literal at h
  by_cases hpi : optAny (fun c => c == 'π') (l.get? 0) = true
  · rw [if_pos hpi] at h
    cases h
    exact ⟨⟨1, by omega, rfl⟩, Or.inl ⟨_, rfl⟩⟩
  · rw [if_neg hpi] at h
    by_cases hb : (l.drop (numI0 l)).take 2 = ['0', 'b']
    · rw [if_pos hb] at h
      split at h
      · cases h
      · rename_i e buf hbs
        by_cases he : 2 < e
        · rw [if_pos he] at h
          split at h
          · cases h
          · cases h
            exact ⟨⟨e, by omega, rfl⟩, Or.inl ⟨_, rfl⟩⟩
        · rw [if_neg he] at h
          simp at h
    · rw [if_neg hb] at h
      by_cases hx : (l.drop (numI0 l)).take 2 = ['0', 'x']
      · rw [if_pos hx] at h
        split at h
        · cases h
        · rename_i e buf hbs
          by_cases he : 2 < e
          · rw [if_pos he] at h
            split at h
            · cases h
            · cases h
              exact ⟨⟨e, by omega, rfl⟩, Or.inl ⟨_, rfl⟩⟩
          · rw [if_neg he] at h
            simp at h
      · rw [if_neg hx] at h
        by_cases hd : optAny (fun c => c.isDigit || c == '.' || c == '-') (l.get? 0) = true
        · rw [if_pos hd] at h
          split at h
          · cases h
          · rename_i s hs
            have hendi := decScanAux_endi cx _ _ _ _ _ hs hinit
            by_cases hdc : 0 < s.dc
            · rw [if_pos hdc] at h
              split at h
              · cases h
                exact ⟨⟨s.endi, hendi hdc, rfl⟩, Or.inr rfl⟩
              · split at h
                · cases h
                  exact ⟨⟨s.endi, hendi hdc, rfl⟩, Or.inl ⟨_, rfl⟩⟩
                · split at h
                  · cases h
                    exact ⟨⟨s.endi, hendi hdc, rfl⟩, Or.inr rfl⟩
                  · cases h
                    exact ⟨⟨s.endi, hendi hdc, rfl⟩, Or.inl ⟨_, rfl⟩⟩
            · rw [if_neg hdc] at h
              simp at h
        · rw [if_neg hd] at h
          simp at h

theorem scanOnce_spec (cx : CharExt) (units : UnitsM U) (ops : DecOps D)
    (vars : Variables) (li : Nat) (rem : List Char) (cbu : CanBeUnit) (plr : Bool)
    (t : Token U F D) (hrem : rem ≠ [])
    (h : scanOnce cx units ops vars li rem cbu plr = .ok (some t)) :
    (t.ptr = rem.take t.ptr.length ∧ 1 ≤ t.ptr.length ∧ t.ptr.length ≤ rem.length) ∧
      (t.typ = TokenType.StringLiteral →
        optAny isAsciiWs t.ptr.head? = t.ptr.all isAsciiWs) ∧
      (numberish t → t.ptr.head? ≠ some '-') ∧
      (isLineRefT t = true → plr = false) := by
  have hlpos : 0 < rem.length := List.length_pos.mpr hrem
  unfold scanOnce at h
  split at h
  · -- comment matched
    rename_i t0 hc
    cases h
    obtain ⟨hptr, htyp, htake⟩ := comment_spec rem t hc
    have hslash : isAsciiWs '/' = false := by decide
    refine ⟨canonA rem t.ptr rem.length hlpos hrem (by rw [hptr, List.take_length]),
      fun _ => ?_, fun hn => ?_, fun hlr => ?_⟩
    · rw [hptr]
      rcases rem with _ | ⟨a, r⟩
      · cases hrem rfl
      · rcases r with _ | ⟨a2, r2⟩
        · simp [List.take] at htake
        · simp [List.take] at htake
          obtain ⟨rfl, rfl⟩ := htake
          simp [optAny, List.all_cons, hslash]
    · rcases hn with ⟨d, hd⟩ | hd
      · rw [htyp] at hd
        cases hd
      · rw [htyp] at hd
        cases hd
    · rw [isLineRefT, htyp] at hlr
      cases hlr
  · -- comment gave none
    rename_i hc
    split at h
    · -- variable/reference matched
      rename_i t0 hv
      cases h
      obtain ⟨⟨k, hk, hptr⟩, hshape⟩ := var_spec cx rem vars li plr t hv
      refine ⟨canonA rem t.ptr k hk hrem hptr, fun hstr => ?_, fun hn => ?_, fun hlr => ?_⟩
      · rcases hshape with ⟨j, hj⟩ | ⟨⟨j, hj⟩, _⟩
        · rw [hj] at hstr
          cases hstr
        · rw [hj] at hstr
          cases hstr
      · rcases hshape with ⟨j, hj⟩ | ⟨⟨j, hj⟩, _⟩
        · rcases hn with ⟨d, hd⟩ | hd
          · rw [hj] at hd
            cases hd
          · rw [hj] at hd
            cases hd
        · rcases hn with ⟨d, hd⟩ | hd
          · rw [hj] at hd
            cases hd
          · rw [hj] at hd
            cases hd
      · rcases hshape with ⟨j, hj⟩ | ⟨⟨j, hj⟩, hplr⟩
        · rw [isLineRefT, hj] at hlr
          cases hlr
        · exact hplr
    · -- variable gave none
      rename_i hv
      split at h
      · -- unit matched
        rename_i t0 hu
        cases h
        obtain ⟨⟨k, hk, hptr⟩, hshape⟩ := unit_spec units rem cbu t hu
        refine ⟨canonA rem t.ptr k hk hrem hptr, fun hstr => ?_, fun hn => ?_,
          fun hlr => ?_⟩
        · rcases hshape with ⟨u, hu2⟩ | ⟨u, hu2⟩
          · rw [hu2] at hstr
            cases hstr
          · rw [hu2] at hstr
            cases hstr
        · rcases hshape with ⟨u, hu2⟩ | ⟨u, hu2⟩
          · rcases hn with ⟨d, hd⟩ | hd
            · rw [hu2] at hd
              cases hd
            · rw [hu2] at hd
              cases hd
          · rcases hn with ⟨d, hd⟩ | hd
            · rw [hu2] at hd
              cases hd
            · rw [hu2] at hd
              cases hd
        · rcases hshape with ⟨u, hu2⟩ | ⟨u, hu2⟩
          · rw [isLineRefT, hu2] at hlr
            cases hlr
          · rw [isLineRefT, hu2] at hlr
            cases hlr
      · -- unit gave none
        rename_i hu
        split at h
        · -- operator matched
          rename_i t0 hop
          cases h
          obtain ⟨⟨k, hk, hptr⟩, o, ho⟩ := op_spec cx rem t hop
          refine ⟨canonA rem t.ptr k hk hrem hptr, fun hstr => ?_, fun hn => ?_,
            fun hlr => ?_⟩
          · rw [ho] at hstr
            cases hstr
          · rcases hn with ⟨d, hd⟩ | hd
            · rw [ho] at hd
              cases hd
            · rw [ho] at hd
              cases hd
          · rw [isLineRefT, ho] at hlr
            cases hlr
        · -- operator gave none
          rename_i hop
          split at h
          · -- number scanner panicked: contradiction with ok
            cases h
          · -- number literal matched
            rename_i t0 hnum
            cases h
            obtain ⟨⟨k, hk, hptr⟩, hnumish⟩ := num_spec cx ops rem t hnum
            refine ⟨canonA rem t.ptr k hk hrem hptr, fun hstr => ?_,
              fun _ hcontra => ?_, fun hlr => ?_⟩
            · rcases hnumish with ⟨d, hd⟩ | hd
              · rw [hstr] at hd
                cases hd
              · rw [hstr] at hd
                cases hd
            · rw [hptr, head?_take rem k hk] at hcontra
              rw [op_minus cx rem hcontra] at hop
              cases hop
            · rcases hnumish with ⟨d, hd⟩ | hd
              · rw [isLineRefT, hd] at hlr
                cases hlr
              · rw [isLineRefT, hd] at hlr
                cases hlr
          · -- number gave none: string fallback
            rename_i hnum
            injection h with h2
            obtain ⟨⟨k, hk, hptr⟩, htyp, hws⟩ := str_spec rem t h2
            refine ⟨canonA rem t.ptr k hk hrem hptr, fun _ => hws, fun hn => ?_,
              fun hlr => ?_⟩
            · rcases hn with ⟨d, hd⟩ | hd
              · rw [htyp] at hd
                cases hd
              · rw [htyp] at hd
                cases hd
            · rw [isLineRefT, htyp] at hlr
              cases hlr

theorem parseLoop_spans (cx : CharExt) (units : UnitsM U) (ops : DecOps D)
    (vars : Variables) (li : Nat) (line : List Char) :
    ∀ (fuel index : Nat) (cbu : CanBeUnit) (acc toks : List (Token U F D)),
      spansJoin acc.reverse = line.take index → index ≤ line.length →
      parseLoop cx units ops vars li line fuel index cbu acc = .ok toks →
      ∃ j, j ≤ line.length ∧ spansJoin toks = line.take j := by
  intro fuel
  induction fuel with
  | zero =>
    intro index cbu acc toks hacc hle h
    rw [parseLoop] at h
    cases h
    exact ⟨index, hle, hacc⟩
  | succ f ih =>
    intro index cbu acc toks hacc hle h
    rw [parseLoop] at h
    split at h
    · rename_i hidx
      split at h
      · cases h
      · cases h
        exact ⟨index, hle, hacc⟩
      · rename_i t hscan
        split at h
        · cases h
        · rename_i cbu2 hnext
          have hrem : line.drop index ≠ [] := by
            intro hcon
            have hcon2 := congrArg List.length hcon
            simp at hcon2
            omega
          obtain ⟨⟨hA1, hA2, hA3⟩, _, _, _⟩ :=
            scanOnce_spec cx units ops vars li (line.drop index) cbu
              (optAny isLineRefT acc.head?) t hrem hscan
          have hlen : t.ptr.length ≤ line.length - index := by
            have h2 := hA3
            rw [List.length_drop] at h2
            exact h2
          apply ih (index + t.ptr.length) cbu2 (t :: acc) toks ?_ (by omega) h
          rw [List.reverse_cons, spansJoin_append, hacc]
          have hone : spansJoin [t] = t.ptr := by simp [spansJoin]
          rw [hone, List.take_add]
          congr 1
    · cases h
      exact ⟨index, hle, hacc⟩

theorem parseLoop_at_end (cx : CharExt) (units : UnitsM U) (ops : DecOps D)
    (vars : Variables) (li : Nat) (line : List Char) (fuel index : Nat)
    (cbu : CanBeUnit) (acc : List (Token U F D)) (h : line.length ≤ index) :
    parseLoop cx units ops vars li line fuel index cbu acc = .ok acc.reverse := by
  cases fuel with
  | zero => rw [parseLoop]
  | succ f =>
    rw [parseLoop]
    rw [if_neg (by omega)]

theorem parseLoop_fuel (cx : CharExt) (units : UnitsM U) (ops : DecOps D)
    (vars : Variables) (li : Nat) (line : List Char) :
    ∀ (f g index : Nat) (cbu : CanBeUnit) (acc : List (Token U F D)),
      line.length ≤ index + f → line.length ≤ index + g →
      parseLoop cx units ops vars li line f index cbu acc
        = parseLoop cx units ops vars li line g index cbu acc := by
  intro f
  induction f with
  | zero =>
    intro g index cbu acc hf hg
    rw [parseLoop_at_end _ _ _ _ _ _ _ _ _ _ (by omega),
      parseLoop_at_end _ _ _ _ _ _ _ _ _ _ (by omega)]
  | succ f ih =>
    intro g index cbu acc hf hg
    by_cases hidx : index < line.length
    · cases g with
      | zero => omega
      | succ g2 =>
        rw [parseLoop, parseLoop, if_pos hidx, if_pos hidx]
        have hrem : line.drop index ≠ [] := by
          intro hcon
          have hcon2 := congrArg List.length hcon
          simp at hcon2
          omega
        cases hscan : scanOnce cx units ops vars li (line.drop index) cbu
            (optAny isLineRefT acc.head?) with
        | error e => rfl
        | ok v =>
          cases v with
          | none => rfl
          | some t =>
            dsimp only
            obtain ⟨⟨hA1, hA2, hA3⟩, _, _, _⟩ :=
              scanOnce_spec cx units ops vars li (line.drop index) cbu
                (optAny isLineRefT acc.head?) t hrem hscan
            cases hnx : nextCanBeUnit t cbu with
            | error e => rfl
            | ok cbu2 =>
              exact ih g2 (index + t.ptr.length) cbu2 (t :: acc) (by omega) (by omega)
    · rw [parseLoop_at_end _ _ _ _ _ _ _ _ _ _ (by omega),
        parseLoop_at_end _ _ _ _ _ _ _ _ _ _ (by omega)]

theorem parseLoop_nominus (cx : CharExt) (units : UnitsM U) (ops : DecOps D)
    (vars : Variables) (li : Nat) (line : List Char) :
    ∀ (fuel index : Nat) (cbu : CanBeUnit) (acc toks : List (Token U F D)),
      (∀ t ∈ acc, numberish t → t.ptr.head? ≠ some '-') →
      parseLoop cx units ops vars li line fuel index cbu acc = .ok toks →
      ∀ t ∈ toks, numberish t → t.ptr.head? ≠ some '-' := by
  intro fuel
  induction fuel with
  | zero =>
    intro index cbu acc toks hacc h
    rw [parseLoop] at h
    cases h
    intro t ht
    exact hacc t (List.mem_reverse.mp ht)
  | succ f ih =>
    intro index cbu acc toks hacc h
    rw [parseLoop] at h
    split at h
    · rename_i hidx
      split at h
      · cases h
      · cases h
        intro t ht
        exact hacc t (List.mem_reverse.mp ht)
      · rename_i t0 hscan
        split at h
        · cases h
        · rename_i cbu2 hnext
          have hrem : line.drop index ≠ [] := by
            intro hcon
            have hcon2 := congrArg List.length hcon
            simp at hcon2
            omega
          obtain ⟨_, _, hC, _⟩ :=
            scanOnce_spec cx units ops vars li (line.drop index) cbu
              (optAny isLineRefT acc.head?) t0 hrem hscan
          apply ih (index + t0.ptr.length) cbu2 (t0 :: acc) toks ?_ h
          intro t ht
          rcases List.mem_cons.mp ht with rfl | hmem
          · exact hC
          · exact hacc t hmem
    · cases h
      intro t ht
      exact hacc t (List.mem_reverse.mp ht)

theorem parseLoop_chain (cx : CharExt) (units : UnitsM U) (ops : DecOps D)
    (vars : Variables) (li : Nat) (line : List Char) :
    ∀ (fuel index : Nat) (cbu : CanBeUnit) (acc toks : List (Token U F D)),
      acc.Chain' (fun a b => ¬(isLineRefT a = true ∧ isLineRefT b = true)) →
      parseLoop cx units ops vars li line fuel index cbu acc = .ok toks →
      toks.Chain' (fun a b => ¬(isLineRefT a = true ∧ isLineRefT b = true)) := by
  have hrev : ∀ acc2 : List (Token U F D),
      acc2.Chain' (fun a b => ¬(isLineRefT a = true ∧ isLineRefT b = true)) →
      acc2.reverse.Chain' (fun a b => ¬(isLineRefT a = true ∧ isLineRefT b = true)) := by
    intro acc2 hacc
    rw [List.chain'_reverse]
    apply List.Chain'.imp ?_ hacc
    intro a b hab
    intro hcon
    exact hab ⟨hcon.2, hcon.1⟩
  intro fuel
  induction fuel with
  | zero =>
    intro index cbu acc toks hacc h
    rw [parseLoop] at h
    cases h
    exact hrev acc hacc
  | succ f ih =>
    intro index cbu acc toks hacc h
    rw [parseLoop] at h
    split at h
    · rename_i hidx
      split at h
      · cases h
      · cases h
        exact hrev acc hacc
      · rename_i t0 hscan
        split at h
        · cases h
        · rename_i cbu2 hnext
          have hrem : line.drop index ≠ [] := by
            intro hcon
            have hcon2 := congrArg List.length hcon
            simp at hcon2
            omega
          obtain ⟨_, _, _, hD⟩ :=
            scanOnce_spec cx units ops vars li (line.drop index) cbu
              (optAny isLineRefT acc.head?) t0 hrem hscan
          apply ih (index + t0.ptr.length) cbu2 (t0 :: acc) toks ?_ h
          rw [List.chain'_cons']
          refine ⟨?_, hacc⟩
          intro y hy
          intro hcon
          have hplr : optAny isLineRefT acc.head? = true := by
            rw [Option.mem_def] at hy
            rw [hy]
            exact hcon.2
          have := hD hcon.1
          rw [hplr] at this
          cases this
    · cases h
      exact hrev acc hacc

theorem varScanDown_spec (cx : CharExt) (line : List Char) (s : List (Option Variable)) :
    ∀ (r : Nat) (best : Nat × Nat),
      (0 < best.2 →
        ∃ v, s.get? best.1 = some (some v) ∧ candOk cx line v.name = true ∧
          v.name.length = best.2 ∧ r ≤ best.1) →
      (∀ i v, r ≤ i → s.get? i = some (some v) → candOk cx line v.name = true →
        v.name.length ≤ best.2 ∧
          (0 < v.name.length → v.name.length = best.2 → i ≤ best.1)) →
      ((0 < (varScanDown cx line s r best).2 →
        ∃ v, s.get? (varScanDown cx line s r best).1 = some (some v) ∧
          candOk cx line v.name = true ∧
          v.name.length = (varScanDown cx line s r best).2) ∧
       (∀ i v, s.get? i = some (some v) → candOk cx line v.name = true →
         v.name.length ≤ (varScanDown cx line s r best).2 ∧
           (0 < v.name.length → v.name.length = (varScanDown cx line s r best).2 →
             i ≤ (varScanDown cx line s r best).1))) := by
  intro r
  induction r with
  | zero =>
    intro best hsound hmax
    rw [varScanDown]
    exact ⟨fun hp => (hsound hp).imp (fun v hv => ⟨hv.1, hv.2.1, hv.2.2.1⟩),
      fun i v hget hcand => hmax i v (Nat.zero_le i) hget hcand⟩
  | succ r ih =>
    intro best hsound hmax
    rw [varScanDown]
    rcases hget : s.get? r with _ | ov
    · dsimp only
      apply ih best
      · intro hp
        obtain ⟨v, h1, h2, h3, h4⟩ := hsound hp
        exact ⟨v, h1, h2, h3, by omega⟩
      · intro i v hri hgeti hcand
        rcases Nat.eq_or_lt_of_le hri with rfl | hlt
        · rw [hget] at hgeti
          cases hgeti
        · exact hmax i v (by omega) hgeti hcand
    · rcases ov with _ | v
      · dsimp only
        apply ih best
        · intro hp
          obtain ⟨v, h1, h2, h3, h4⟩ := hsound hp
          exact ⟨v, h1, h2, h3, by omega⟩
        · intro i v hri hgeti hcand
          rcases Nat.eq_or_lt_of_le hri with rfl | hlt
          · rw [hget] at hgeti
            cases hgeti
          · exact hmax i v (by omega) hgeti hcand
      · dsimp only
        by_cases hcand : candOk cx line v.name = true
        · rw [if_pos hcand]
          by_cases hlonger : best.2 < v.name.length
          · rw [if_pos hlonger]
            apply ih (r, v.name.length)
            · intro _
              exact ⟨v, hget, hcand, rfl, Nat.le_refl r⟩
            · intro i w hri hgeti hcandw
              rcases Nat.eq_or_lt_of_le hri with rfl | hlt
              · rw [hget] at hgeti
                injection hgeti with hgeti2
                injection hgeti2 with hgeti3
                subst hgeti3
                exact ⟨Nat.le_refl _, fun _ _ => Nat.le_refl _⟩
              · obtain ⟨hle, htie⟩ := hmax i w (by omega) hgeti hcandw
                exact ⟨by omega, fun hpos heq => by omega⟩
          · rw [if_neg hlonger]
            apply ih best
            · intro hp
              obtain ⟨v0, h1, h2, h3, h4⟩ := hsound hp
              exact ⟨v0, h1, h2, h3, by omega⟩
            · intro i w hri hgeti hcandw
              rcases Nat.eq_or_lt_of_le hri with rfl | hlt
              · rw [hget] at hgeti
                injection hgeti with hgeti2
                injection hgeti2 with hgeti3
                subst hgeti3
                refine ⟨by omega, fun hpos heq => ?_⟩
                obtain ⟨v0, h1, h2, h3, h4⟩ := hsound (by omega)
                omega
              · exact hmax i w (by omega) hgeti hcandw
        · rw [if_neg hcand]
          apply ih best
          · intro hp
            obtain ⟨v0, h1, h2, h3, h4⟩ := hsound hp
            exact ⟨v0, h1, h2, h3, by omega⟩
          · intro i w hri hgeti hcandw
            rcases Nat.eq_or_lt_of_le hri with rfl | hlt
            · rw [hget] at hgeti
              injection hgeti with hgeti2
              injection hgeti2 with hgeti3
              subst hgeti3
              exact absurd hcandw hcand
            · exact hmax i w (by omega) hgeti hcandw

/-! ### Claim theorems -/

/-- C3: OperatorTokenType::precedence and ::assoc realize exactly the
    table of spec section 4.7: precedence 6 for Perc and Pow, 5 for
    ApplyUnit, 4 for UnaryPlus, UnaryMinus and BinNot, 3 for Mult and
    Div, 2 for Add and Sub, 0 for all the rest; associativity is Right
    exactly for Pow, Comma and Semicolon and Left for every other
    operator. -/
theorem c3_precedence_assoc_table {U F : Type} (op : OperatorTokenType U F) :
    op.precedence = specPrecedence op ∧
      (op.assoc = Assoc.Right ↔
        (op = OperatorTokenType.Pow ∨ op = OperatorTokenType.Comma ∨
          op = OperatorTokenType.Semicolon)) ∧
      (op.assoc = Assoc.Left ↔
        ¬(op = OperatorTokenType.Pow ∨ op = OperatorTokenType.Comma ∨
          op = OperatorTokenType.Semicolon)) := by
  cases op <;>
    simp [OperatorTokenType.precedence, OperatorTokenType.assoc, specPrecedence]

/-- C8: for every line whose first character is #, parse_line emits
    exactly one token, of kind Header, whose span is the entire line. -/
theorem c8_header_line (cx : CharExt) (units : UnitsM U) (ops : DecOps D)
    (line : List Char) (vars : Variables) (li : Nat)
    (h : line.head? = some '#') :
    parse_line (F := F) cx units ops line vars li =
      .ok [⟨line, TokenType.Header, false⟩] := by
  unfold parse_line
  rcases line with _ | ⟨c, r⟩
  · cases h
  · injection h with h2
    subst h2
    rw [if_pos (by simp [List.take])]

/-- Witness for C8 at the concrete line "#a". -/
theorem c8_header_line_witness :
    (['#', 'a'].head? = some '#') ∧
      parse_line (U := Unit) (F := Unit) cx0 units0 ops0 ['#', 'a'] [] 0 =
        .ok [⟨['#', 'a'], TokenType.Header, false⟩] :=
  ⟨rfl, c8_header_line cx0 units0 ops0 ['#', 'a'] [] 0 rfl⟩

set_option maxRecDepth 100000

/-- C1 is a code bug: the number scanner writes every consumed digit into
    the fixed 256-byte number_str buffer with no bound check, so a line
    of 257 consecutive digits makes parse_line abort with an
    index-out-of-bounds panic (Except.error here) instead of degrading to
    a NumberErr token. -/
theorem c1_huge_digit_run_panics :
    parse_line (U := Unit) (F := Unit) cx0 units0 ops0 (List.replicate 257 '1') [] 0 =
      .error () := by
  rfl

/-- C2: span coverage: whenever parse_line returns a token list, the
    concatenation of the tokens' spans in order equals the prefix of the
    line of exactly its own length (the part consumed so far), and if
    that length is the whole line (the cursor reached the end) the
    concatenation is exactly the original line. -/
theorem c2_span_coverage (cx : CharExt) (units : UnitsM U) (ops : DecOps D)
    (line : List Char) (vars : Variables) (li : Nat) (toks : List (Token U F D))
    (h : parse_line cx units ops line vars li = .ok toks) :
    spansJoin toks = line.take (spansJoin toks).length ∧
      ((spansJoin toks).length = line.length → spansJoin toks = line) := by
  unfold parse_line at h
  split at h
  · cases h
    constructor
    · simp [spansJoin]
    · intro
      simp [spansJoin]
  · obtain ⟨j, hj, hjoin⟩ := parseLoop_spans cx units ops vars li line line.length 0
      CanBeUnit.Not [] toks (by simp [spansJoin]) (by omega) h
    have hlen : (spansJoin toks).length = j := by
      rw [hjoin, List.length_take]
      omega
    constructor
    · rw [hlen, hjoin]
    · intro hfull
      rw [hjoin]
      have hje : j = line.length := by omega
      rw [hje, List.take_length]

/-- Witness for C2 at the concrete line "1 " (a NumberErr then a
    whitespace StringLiteral under the trivial external interfaces). -/
theorem c2_span_coverage_witness :
    (parse_line (U := Unit) (F := Unit) cx0 units0 ops0 ['1', ' '] [] 0 =
      .ok [⟨['1'], TokenType.NumberErr, true⟩,
        ⟨[' '], TokenType.StringLiteral, false⟩]) ∧
      spansJoin [(⟨['1'], TokenType.NumberErr, true⟩ : Token Unit Unit Unit),
        ⟨[' '], TokenType.StringLiteral, false⟩] = ['1', ' '] :=
  ⟨rfl,
    (c2_span_coverage cx0 units0 ops0 ['1', ' '] [] 0 _ rfl).2 (by decide)⟩

/-- C9: termination: every token any scanner returns on a non-empty
    remainder spans at least one character (the cursor strictly
    advances), and the parse loop gives the same result for every fuel
    bound of at least the line length, i.e. line.length iterations always
    suffice and the loop halts. -/
theorem c9_termination (cx : CharExt) (units : UnitsM U) (ops : DecOps D)
    (vars : Variables) (li : Nat) (line : List Char) :
    (∀ (rem : List Char) (cbu : CanBeUnit) (plr : Bool) (t : Token U F D),
      rem ≠ [] → scanOnce cx units ops vars li rem cbu plr = .ok (some t) →
      1 ≤ t.ptr.length) ∧
      (∀ f, line.length ≤ f →
        parseLoop (F := F) cx units ops vars li line f 0 CanBeUnit.Not [] =
          parseLoop (F := F) cx units ops vars li line line.length 0 CanBeUnit.Not []) := by
  constructor
  · intro rem cbu plr t hrem hscan
    exact (scanOnce_spec cx units ops vars li rem cbu plr t hrem hscan).1.2.1
  · intro f hf
    exact parseLoop_fuel cx units ops vars li line f line.length 0 CanBeUnit.Not []
      (by omega) (by omega)

/-- Witness for C9: a concrete one-character scan result and fuel
    insensitivity on the concrete line "ab". -/
theorem c9_termination_witness :
    (1 ≤ (⟨['a'], TokenType.StringLiteral, false⟩ : Token Unit Unit Unit).ptr.length) ∧
      (parseLoop (F := Unit) cx0 units0 ops0 [] 0 ['a', 'b'] 5 0 CanBeUnit.Not [] =
        parseLoop (F := Unit) cx0 units0 ops0 [] 0 ['a', 'b'] 2 0 CanBeUnit.Not []) :=
  ⟨(c9_termination cx0 units0 ops0 [] 0 ['a', 'b']).1 ['a'] CanBeUnit.Not false
      ⟨['a'], TokenType.StringLiteral, false⟩ (by decide) rfl,
    (c9_termination cx0 units0 ops0 [] 0 ['a', 'b']).2 5 (by decide)⟩

/-- C10: every NumberLiteral or NumberErr token emitted by parse_line has
    a span that does not begin with a minus sign; the operator scanner,
    which runs before the number scanner, always turns a leading minus
    into an Operator Sub token, so the number scanner's leading-minus
    branch is unreachable from parse_line. -/
theorem c10_no_leading_minus (cx : CharExt) (units : UnitsM U) (ops : DecOps D)
    (line : List Char) (vars : Variables) (li : Nat) (toks : List (Token U F D))
    (h : parse_line cx units ops line vars li = .ok toks) :
    (∀ t ∈ toks, numberish t → t.ptr.head? ≠ some '-') ∧
      (∀ l2 : List Char, l2.head? = some '-' →
        try_extract_operator (U := U) (F := F) (D := D) cx l2 =
          some ⟨l2.take 1, TokenType.Operator OperatorTokenType.Sub, false⟩) := by
  constructor
  · unfold parse_line at h
    split at h
    · cases h
      intro t ht hn
      rcases List.mem_singleton.mp ht with rfl
      rcases hn with ⟨d, hd⟩ | hd
      · cases hd
      · cases hd
    · exact parseLoop_nominus cx units ops vars li line line.length 0 CanBeUnit.Not []
        toks (by intro t ht; cases ht) h
  · intro l2 h2
    exact op_minus cx l2 h2

/-- Witness for C10 at the concrete line "-2": the minus becomes a Sub
    operator and the numeral token span starts with the digit. -/
theorem c10_no_leading_minus_witness :
    (parse_line (U := Unit) (F := Unit) cx0 units0 ops0 ['-', '2'] [] 0 =
      .ok [⟨['-'], TokenType.Operator OperatorTokenType.Sub, false⟩,
        ⟨['2'], TokenType.NumberErr, true⟩]) ∧
      (⟨['2'], TokenType.NumberErr, true⟩ : Token Unit Unit Unit).ptr.head? ≠ some '-' :=
  ⟨rfl,
    (c10_no_leading_minus cx0 units0 ops0 ['-', '2'] [] 0 _ rfl).1
      ⟨['2'], TokenType.NumberErr, true⟩ (by simp) (Or.inr rfl)⟩

/-- C6: when the winning variable-table match is longer than two
    characters and starts with the characters & [, the token is
    classified LineReference; if the previous token is already a
    LineReference the scanner returns no match instead; consequently no
    token list produced by parse_line contains two adjacent LineReference
    tokens. -/
theorem c6_lineref_rules (cx : CharExt) (units : UnitsM U) (ops : DecOps D)
    (vars : Variables) :
    (∀ (line : List Char) (ri : Nat),
      ¬(line.take 3 = ['s', 'u', 'm'] ∧ optAll (fun c => c == ' ') (line.get? 3) = true) →
      2 < (varScanDown cx line (vars.take ri) (vars.take ri).length (0, 0)).2 →
      line.get? 0 = some '&' → line.get? 1 = some '[' →
      (try_extract_variable_name (U := U) (F := F) (D := D) cx line vars ri false =
          some ⟨line.take (varScanDown cx line (vars.take ri) (vars.take ri).length (0, 0)).2,
            TokenType.LineReference
              (varScanDown cx line (vars.take ri) (vars.take ri).length (0, 0)).1,
            false⟩ ∧
        try_extract_variable_name (U := U) (F := F) (D := D) cx line vars ri true =
          none)) ∧
      (∀ (line : List Char) (li : Nat) (toks : List (Token U F D)),
        parse_line cx units ops line vars li = .ok toks →
        toks.Chain' (fun a b => ¬(isLineRefT a = true ∧ isLineRefT b = true))) := by
  constructor
  · intro line ri hsum hlen h0 h1
    constructor
    · unfold try_extract_variable_name
      rw [if_neg hsum, if_pos (by omega), if_pos ⟨hlen, h0, h1⟩, if_neg (by simp)]
    · unfold try_extract_variable_name
      rw [if_neg hsum, if_pos (by omega), if_pos ⟨hlen, h0, h1⟩, if_pos rfl]
  · intro line li toks h
    unfold parse_line at h
    split at h
    · cases h
      simp
    · exact parseLoop_chain cx units ops vars li line line.length 0 CanBeUnit.Not []
        toks (by simp) h

/-- Witness for C6 with the table entry &[1] (declared on line 0) and the
    lines "&[1]" (scanner level) and "&[1]&[1]" (loop level, where the
    second reference shape degrades to separate tokens). -/
theorem c6_lineref_rules_witness :
    (try_extract_variable_name (U := Unit) (F := Unit) (D := Unit) cx0
        ['&', '[', '1', ']'] [some ⟨['&', '[', '1', ']']⟩] 1 false =
        some ⟨['&', '[', '1', ']'], TokenType.LineReference 0, false⟩ ∧
      try_extract_variable_name (U := Unit) (F := Unit) (D := Unit) cx0
        ['&', '[', '1', ']'] [some ⟨['&', '[', '1', ']']⟩] 1 true = none) ∧
      (parse_line (U := Unit) (F := Unit) cx0 units0 ops0
          ['&', '[', '1', ']', '&', '[', '1', ']'] [some ⟨['&', '[', '1', ']']⟩] 1 =
        .ok [⟨['&', '[', '1', ']'], TokenType.LineReference 0, false⟩,
          ⟨['&'], TokenType.StringLiteral, false⟩,
          ⟨['['], TokenType.Operator OperatorTokenType.BracketOpen, false⟩,
          ⟨['1'], TokenType.NumberErr, true⟩,
          ⟨[']'], TokenType.Operator OperatorTokenType.BracketClose, false⟩]) ∧
      ([(⟨['&', '[', '1', ']'], TokenType.LineReference 0, false⟩ : Token Unit Unit Unit),
          ⟨['&'], TokenType.StringLiteral, false⟩,
          ⟨['['], TokenType.Operator OperatorTokenType.BracketOpen, false⟩,
          ⟨['1'], TokenType.NumberErr, true⟩,
          ⟨[']'], TokenType.Operator OperatorTokenType.BracketClose, false⟩]).Chain'
        (fun a b => ¬(isLineRefT a = true ∧ isLineRefT b = true)) :=
  ⟨(c6_lineref_rules cx0 units0 ops0 [some ⟨['&', '[', '1', ']']⟩]).1
      ['&', '[', '1', ']'] 1 (by decide) (by decide) rfl rfl,
    rfl,
    (c6_lineref_rules cx0 units0 ops0 [some ⟨['&', '[', '1', ']']⟩]).2
      ['&', '[', '1', ']', '&', '[', '1', ']'] 1 _ rfl⟩

/-- C5: after each appended token the unit-disambiguation mode is updated
    exactly by kind: NumberLiteral and NumberErr set ApplyToPrevToken;
    Unit sets Not; an Operator sets Not except ParenClose (mode
    unchanged) and UnitConverter or Div (StandInItself); Variable and
    LineReference set Not; a whitespace-only StringLiteral (as every
    StringLiteral the scanners produce is whitespace-only exactly when
    its first character is whitespace) leaves the mode unchanged while
    any other StringLiteral sets Not; and the loop starts in mode Not. -/
theorem c5_mode_transitions (cx : CharExt) (units : UnitsM U) (ops : DecOps D)
    (vars : Variables) (li : Nat) :
    (∀ (p : List Char) (e : Bool) (cbu : CanBeUnit) (d : D),
      nextCanBeUnit (U := U) (F := F) ⟨p, TokenType.NumberLiteral d, e⟩ cbu =
        .ok CanBeUnit.ApplyToPrevToken) ∧
    (∀ (p : List Char) (e : Bool) (cbu : CanBeUnit),
      nextCanBeUnit (U := U) (F := F) (D := D) ⟨p, TokenType.NumberErr, e⟩ cbu =
        .ok CanBeUnit.ApplyToPrevToken) ∧
    (∀ (p : List Char) (e : Bool) (cbu : CanBeUnit) (u : U),
      nextCanBeUnit (F := F) (D := D) ⟨p, TokenType.Unit u, e⟩ cbu =
        .ok CanBeUnit.Not) ∧
    (∀ (p : List Char) (e : Bool) (cbu : CanBeUnit),
      nextCanBeUnit (U := U) (F := F) (D := D)
        ⟨p, TokenType.Operator OperatorTokenType.ParenClose, e⟩ cbu = .ok cbu) ∧
    (∀ (p : List Char) (e : Bool) (cbu : CanBeUnit),
      nextCanBeUnit (U := U) (F := F) (D := D)
        ⟨p, TokenType.Operator OperatorTokenType.UnitConverter, e⟩ cbu =
        .ok CanBeUnit.StandInItself) ∧
    (∀ (p : List Char) (e : Bool) (cbu : CanBeUnit),
      nextCanBeUnit (U := U) (F := F) (D := D)
        ⟨p, TokenType.Operator OperatorTokenType.Div, e⟩ cbu =
        .ok CanBeUnit.StandInItself) ∧
    (∀ (p : List Char) (e : Bool) (cbu : CanBeUnit) (op : OperatorTokenType U F),
      op ≠ OperatorTokenType.ParenClose → op ≠ OperatorTokenType.UnitConverter →
      op ≠ OperatorTokenType.Div →
      nextCanBeUnit (D := D) ⟨p, TokenType.Operator op, e⟩ cbu = .ok CanBeUnit.Not) ∧
    (∀ (p : List Char) (e : Bool) (cbu : CanBeUnit) (j : Nat),
      nextCanBeUnit (U := U) (F := F) (D := D) ⟨p, TokenType.Variable j, e⟩ cbu =
        .ok CanBeUnit.Not) ∧
    (∀ (p : List Char) (e : Bool) (cbu : CanBeUnit) (j : Nat),
      nextCanBeUnit (U := U) (F := F) (D := D) ⟨p, TokenType.LineReference j, e⟩ cbu =
        .ok CanBeUnit.Not) ∧
    (∀ (rem : List Char) (cbu : CanBeUnit) (plr : Bool) (t : Token U F D),
      rem ≠ [] → scanOnce cx units ops vars li rem cbu plr = .ok (some t) →
      t.typ = TokenType.StringLiteral →
      ((t.ptr.all isAsciiWs = true → nextCanBeUnit t cbu = .ok cbu) ∧
        (t.ptr.all isAsciiWs = false → nextCanBeUnit t cbu = .ok CanBeUnit.Not))) ∧
    (∀ line : List Char, ¬(line.take 1 = ['#']) →
      parse_line (F := F) cx units ops line vars li =
        parseLoop cx units ops vars li line line.length 0 CanBeUnit.Not []) := by
  refine ⟨fun p e cbu d => rfl, fun p e cbu => rfl, fun p e cbu u => rfl,
    fun p e cbu => rfl, fun p e cbu => rfl, fun p e cbu => rfl,
    ?_, fun p e cbu j => rfl, fun p e cbu j => rfl, ?_, ?_⟩
  · intro p e cbu op h1 h2 h3
    cases op <;> first | rfl | simp_all
  · intro rem cbu plr t hrem hscan htyp
    obtain ⟨⟨hA1, hA2, hA3⟩, hBf, _, _⟩ :=
      scanOnce_spec cx units ops vars li rem cbu plr t hrem hscan
    have hB := hBf htyp
    rcases hp : t.ptr with _ | ⟨c, r⟩
    · rw [hp] at hA2
      simp at hA2
    · rw [hp] at hB
      simp only [List.head?_cons, optAny] at hB
      constructor
      · intro hall
        rw [hall] at hB
        simp only [nextCanBeUnit, htyp, hp, List.head?_cons]
        rw [if_pos hB]
      · intro hall
        rw [hall] at hB
        simp only [nextCanBeUnit, htyp, hp, List.head?_cons]
        rw [if_neg (by rw [hB]; simp)]
  · intro line hhash
    unfold parse_line
    rw [if_neg hhash]

/-- Witness for C5: the non-whitespace StringLiteral "a" produced by the
    scanners sets the mode to Not, and parse_line on "a" starts the loop
    in mode Not. -/
theorem c5_mode_transitions_witness :
    (nextCanBeUnit (U := Unit) (F := Unit) (D := Unit)
        ⟨['a'], TokenType.StringLiteral, false⟩ CanBeUnit.ApplyToPrevToken =
      .ok CanBeUnit.Not) ∧
      (parse_line (U := Unit) (F := Unit) cx0 units0 ops0 ['a'] [] 0 =
        parseLoop cx0 units0 ops0 [] 0 ['a'] (['a'].length) 0 CanBeUnit.Not []) :=
  ⟨((c5_mode_transitions cx0 units0 ops0 [] 0).2.2.2.2.2.2.2.2.2.1 ['a']
      CanBeUnit.ApplyToPrevToken false ⟨['a'], TokenType.StringLiteral, false⟩
      (by decide) rfl rfl).2 (by decide),
    (c5_mode_transitions cx0 units0 ops0 [] 0).2.2.2.2.2.2.2.2.2.2 ['a'] (by decide)⟩

/-- C4: away from the reserved sum fast path, the variable scanner
    chooses among exactly the candidate entries: slots that are present,
    declared strictly before the current line, with a (non-empty) name
    all of whose characters match the input and whose following character
    (if any) is neither a parenthesis-open nor alphanumeric.  Any
    returned token is a candidate of maximal name length, with the
    later-declared (higher-index) entry winning ties, and its span is the
    matched name; and when some candidate exists (and the previous token
    is not a line reference) a token is indeed returned. -/
theorem c4_variable_selection (cx : CharExt) (line : List Char) (vars : Variables)
    (ri : Nat)
    (hsum : ¬(line.take 3 = ['s', 'u', 'm']
      ∧ optAll (fun c => c == ' ') (line.get? 3) = true)) :
    (∀ (plr : Bool) (t : Token U F D),
      try_extract_variable_name cx line vars ri plr = some t →
      ∃ j v, (t.typ = TokenType.Variable j ∨ t.typ = TokenType.LineReference j) ∧
        j < ri ∧ vars.get? j = some (some v) ∧ candOk cx line v.name = true ∧
        0 < v.name.length ∧ t.ptr = line.take v.name.length ∧
        (∀ i w, i < ri → vars.get? i = some (some w) → candOk cx line w.name = true →
          (w.name.length < v.name.length ∨
            (w.name.length = v.name.length ∧ i ≤ j)))) ∧
      ((∃ i w, i < ri ∧ vars.get? i = some (some w) ∧ candOk cx line w.name = true ∧
          0 < w.name.length) →
        ∃ t : Token U F D, try_extract_variable_name cx line vars ri false = some t) := by
  have hs0 : 0 < ((0, 0) : Nat × Nat).2 →
      ∃ v, (vars.take ri).get? ((0, 0) : Nat × Nat).1 = some (some v) ∧
        candOk cx line v.name = true ∧ v.name.length = ((0, 0) : Nat × Nat).2 ∧
        (vars.take ri).length ≤ ((0, 0) : Nat × Nat).1 :=
    fun hp => absurd hp (by omega)
  have hm0 : ∀ i v, (vars.take ri).length ≤ i →
      (vars.take ri).get? i = some (some v) → candOk cx line v.name = true →
      v.name.length ≤ ((0, 0) : Nat × Nat).2 ∧
        (0 < v.name.length → v.name.length = ((0, 0) : Nat × Nat).2 →
          i ≤ ((0, 0) : Nat × Nat).1) := by
    intro i v hle hget hcand
    rw [List.get?_eq_none.mpr hle] at hget
    cases hget
  obtain ⟨hsoundF, hmaxF⟩ :=
    varScanDown_spec cx line (vars.take ri) (vars.take ri).length (0, 0) hs0 hm0
  constructor
  · intro plr t h
    unfold try_extract_variable_name at h
    rw [if_neg hsum] at h
    by_cases hpos : 0 < (varScanDown cx line (vars.take ri) (vars.take ri).length (0, 0)).2
    · rw [if_pos hpos] at h
      obtain ⟨v, hgetv, hcandv, hlenv⟩ := hsoundF hpos
      obtain ⟨hjri, hvars⟩ := (get?_take_iff vars ri _ _).mp hgetv
      have hmaxAll : ∀ i w, i < ri → vars.get? i = some (some w) →
          candOk cx line w.name = true →
          (w.name.length < v.name.length ∨
            (w.name.length = v.name.length ∧
              i ≤ (varScanDown cx line (vars.take ri) (vars.take ri).length (0, 0)).1)) := by
        intro i w hiri hgeti hcandw
        obtain ⟨hle, htie⟩ := hmaxF i w ((get?_take_iff vars ri i _).mpr ⟨hiri, hgeti⟩) hcandw
        rw [← hlenv] at hle
        rcases Nat.lt_or_ge w.name.length v.name.length with hlt | hge
        · exact Or.inl hlt
        · have heq : w.name.length = v.name.length := by omega
          refine Or.inr ⟨heq, htie ?_ ?_⟩
          · omega
          · omega
      by_cases hlr : 2 < (varScanDown cx line (vars.take ri) (vars.take ri).length (0, 0)).2
          ∧ line.get? 0 = some '&' ∧ line.get? 1 = some '['
      · rw [if_pos hlr] at h
        cases plr with
        | true =>
          rw [if_pos rfl] at h
          cases h
        | false =>
          rw [if_neg (by simp)] at h
          cases h
          refine ⟨_, v, Or.inr rfl, hjri, hvars, hcandv, by omega, by rw [hlenv], hmaxAll⟩
      · rw [if_neg hlr] at h
        cases h
        refine ⟨_, v, Or.inl rfl, hjri, hvars, hcandv, by omega, by rw [hlenv], hmaxAll⟩
    · rw [if_neg hpos] at h
      cases h
  · intro hex
    obtain ⟨i, w, hiri, hget, hcand, hwpos⟩ := hex
    have hSget : (vars.take ri).get? i = some (some w) :=
      (get?_take_iff vars ri i _).mpr ⟨hiri, hget⟩
    obtain ⟨hle, _⟩ := hmaxF i w hSget hcand
    have hpos : 0 < (varScanDown cx line (vars.take ri) (vars.take ri).length (0, 0)).2 := by
      omega
    unfold try_extract_variable_name
    rw [if_neg hsum, if_pos hpos]
    by_cases hlr : 2 < (varScanDown cx line (vars.take ri) (vars.take ri).length (0, 0)).2
        ∧ line.get? 0 = some '&' ∧ line.get? 1 = some '['
    · rw [if_pos hlr, if_neg (by simp)]
      exact ⟨_, rfl⟩
    · rw [if_neg hlr]
      exact ⟨_, rfl⟩

/-- Witness for C4 with variables b (line 0) and b0 (line 1) on the line
    "b0 + 100": the longest candidate b0 is chosen. -/
theorem c4_variable_selection_witness :
    (try_extract_variable_name (U := Unit) (F := Unit) (D := Unit) cx0
        ['b', '0', ' ', '+', ' ', '1', '0', '0'] [some ⟨['b']⟩, some ⟨['b', '0']⟩] 10 false =
      some ⟨['b', '0'], TokenType.Variable 1, false⟩) ∧
      (∃ j v, ((⟨['b', '0'], TokenType.Variable 1, false⟩ : Token Unit Unit Unit).typ =
            TokenType.Variable j ∨
          (⟨['b', '0'], TokenType.Variable 1, false⟩ : Token Unit Unit Unit).typ =
            TokenType.LineReference j) ∧
        j < 10 ∧
        ([some ⟨['b']⟩, some ⟨['b', '0']⟩] : Variables).get? j = some (some v) ∧
        candOk cx0 ['b', '0', ' ', '+', ' ', '1', '0', '0'] v.name = true ∧
        0 < v.name.length ∧
        (⟨['b', '0'], TokenType.Variable 1, false⟩ : Token Unit Unit Unit).ptr =
          (['b', '0', ' ', '+', ' ', '1', '0', '0']).take v.name.length ∧
        (∀ i w, i < 10 →
          ([some ⟨['b']⟩, some ⟨['b', '0']⟩] : Variables).get? i = some (some w) →
          candOk cx0 ['b', '0', ' ', '+', ' ', '1', '0', '0'] w.name = true →
          (w.name.length < v.name.length ∨ (w.name.length = v.name.length ∧ i ≤ j)))) :=
  ⟨rfl,
    (c4_variable_selection cx0 ['b', '0', ' ', '+', ' ', '1', '0', '0']
        [some ⟨['b']⟩, some ⟨['b', '0']⟩] 10 (by decide)).1 false
      ⟨['b', '0'], TokenType.Variable 1, false⟩ rfl⟩

/-- C7: in the decimal/scientific branch of the number scanner, whenever
    the consumed body holds at least one digit but the decimal parse
    fails, or the parse succeeds and the SI multiplier (k = 1000,
    M = 1000000) overflows on multiplication, a token is still emitted
    with kind NumberErr, the error flag set and span equal to the
    consumed characters; and the parse loop appends such a token and
    continues tokenizing the rest of the line (in mode
    ApplyToPrevToken). -/
theorem c7_numbererr_emission (cx : CharExt) (units : UnitsM U) (ops : DecOps D)
    (vars : Variables) (li : Nat) :
    (∀ (l : List Char) (s : DScan),
      optAny (fun c => c == 'π') (l.get? 0) = false →
      (l.drop (numI0 l)).take 2 ≠ ['0', 'b'] →
      (l.drop (numI0 l)).take 2 ≠ ['0', 'x'] →
      optAny (fun c => c.isDigit || c == '.' || c == '-') (l.get? 0) = true →
      decScanAux cx (l.drop (numI0 l)) (numI0 l) (numPrev0 l) (decInit l) = .ok s →
      0 < s.dc →
      ((if s.eadded then ops.from_scientific else ops.from_str) (bufStr s.buf) = none ∨
        (∃ d m, (if s.eadded then ops.from_scientific else ops.from_str) (bufStr s.buf)
            = some d ∧
          s.mult = some m ∧ ops.checked_mul (ops.ofInt (m : Int)) d = none)) →
      try_extract_number_literal (U := U) (F := F) cx ops l =
        .ok (some ⟨l.take s.endi, TokenType.NumberErr, true⟩)) ∧
      (∀ (line : List Char) (fuel index : Nat) (cbu : CanBeUnit)
          (acc : List (Token U F D)) (t : Token U F D),
        index < line.length →
        scanOnce cx units ops vars li (line.drop index) cbu
            (optAny isLineRefT acc.head?) = .ok (some t) →
        t.typ = TokenType.NumberErr →
        parseLoop cx units ops vars li line (fuel + 1) index cbu acc =
          parseLoop cx units ops vars li line fuel (index + t.ptr.length)
            CanBeUnit.ApplyToPrevToken (t :: acc)) := by
  constructor
  · intro l s hpi hb hx hd hs hdc hfail
    unfold try_extract_number_literal
    rw [if_neg (by rw [hpi]; simp), if_neg hb, if_neg hx, if_pos hd]
    simp only [hs]
    rw [if_pos hdc]
    rcases hfail with hnone | ⟨d, m, hsome, hm, hmul⟩
    · simp only [hnone]
    · simp only [hsome, hm, hmul]
  · intro line fuel index cbu acc t hidx hscan htyp
    have hnext : nextCanBeUnit t cbu = .ok CanBeUnit.ApplyToPrevToken := by
      simp only [nextCanBeUnit, htyp]
    rw [parseLoop, if_pos hidx]
    simp only [hscan, hnext]

/-- Witness for C7 at the line "1" under the trivial decimal interface
    whose parser rejects everything: a NumberErr token over "1" is
    emitted and the loop continues past it. -/
theorem c7_numbererr_emission_witness :
    (try_extract_number_literal (U := Unit) (F := Unit) cx0 ops0 ['1'] =
      .ok (some ⟨['1'], TokenType.NumberErr, true⟩)) ∧
      (parseLoop (F := Unit) cx0 units0 ops0 [] 0 ['1'] 1 0 CanBeUnit.Not [] =
        parseLoop cx0 units0 ops0 [] 0 ['1'] 0 1 CanBeUnit.ApplyToPrevToken
          [⟨['1'], TokenType.NumberErr, true⟩]) :=
  ⟨(c7_numbererr_emission cx0 units0 ops0 [] 0).1 ['1']
      { dpc := 0, dc := 1, ec := 0, endi := 1, eneg := false, eadded := false,
        mult := none, buf := (['1'], 1) }
      rfl (by decide) (by decide) rfl rfl (by decide) (Or.inl rfl),
    (c7_numbererr_emission cx0 units0 ops0 [] 0).2 ['1'] 0 0 CanBeUnit.Not []
      ⟨['1'], TokenType.NumberErr, true⟩ (by decide) rfl rfl⟩
